import Mathlib

/-!
# Verification of the equirectangular-to-perspective projection pipeline

Shallow embedding of `src/perspective.rs` (struct `Equirectangular`, method
`get_perspective`, helpers `xyz_to_lonlat` and `lonlat_to_xy`) over the real
numbers.  The `f64` arithmetic of the source is modelled by `ℝ`; per-pixel
3-vectors by `Fin 3 → ℝ`; the 3×3 matrices by `Matrix (Fin 3) (Fin 3) ℝ`.
The two external library calls whose mathematical contract the pipeline relies
on are modelled from their documented semantics:

* OpenCV `rodrigues` (angle-axis vector to rotation matrix) is modelled by the
  standard Rodrigues formula `R = I + sin θ·K + (1 - cos θ)·K²` applied to the
  normalised axis, where `K` is the cross-product matrix; for a unit axis this
  is exactly the form `cos θ·I + (1-cos θ)·a·aᵀ + sin θ·K` given in the OpenCV
  documentation, and the zero vector maps to the identity.
* OpenCV `remap` is not modelled pixel-wise; only the arguments the code passes
  to it (interpolation flag, border mode, border scalar) are recorded, with the
  border flag split into its per-axis meaning (OpenCV border modes apply
  uniformly to all image borders).
-/

open Real Matrix

noncomputable section

/-- 3-component pixel/direction vectors (`ndarray` innermost axis of length 3). -/
abbrev V3 := Fin 3 → ℝ

/-- 3×3 `f64` matrices of the source. -/
abbrev M3 := Matrix (Fin 3) (Fin 3) ℝ

/-- `v.dot(&v)` for a 3-vector: the sum of squared components. -/
def sumSq (v : V3) : ℝ := v 0 ^ 2 + v 1 ^ 2 + v 2 ^ 2

/-- The per-pixel norm computed in `xyz_to_lonlat`:
`xyz.map_axis(Axis(2), |v| v.dot(&v).sqrt())`. -/
def norm3 (v : V3) : ℝ := Real.sqrt (sumSq v)

/-- The broadcast division `xyz / norm` of `xyz_to_lonlat`, per pixel. -/
def normalize3 (v : V3) : V3 := fun i => v i / norm3 v

open Classical in
/-- Model of `f64::atan2`: `atan2 y x` is the four-quadrant arctangent of
`y / x` (the angle of the point `(x, y)`), matching the IEEE conventions for
nonzero arguments and sending `(0, 0)` to `0`. -/
def atan2 (y x : ℝ) : ℝ :=
  if 0 < x then Real.arctan (y / x)
  else if x < 0 then
    (if 0 ≤ y then Real.arctan (y / x) + π else Real.arctan (y / x) - π)
  else if 0 < y then π / 2
  else if y < 0 then -(π / 2)
  else 0

/-- `xyz_to_lonlat`, per pixel: normalise the vector, then
`lon = x.atan2(z)`, `lat = y.asin()` on the normalised components. -/
def xyz_to_lonlat (v : V3) : ℝ × ℝ :=
  let n := normalize3 v
  (atan2 (n 0) (n 2), Real.arcsin (n 1))

open Classical in
/-- Definedness envelope of the unguarded normalisation in `xyz_to_lonlat`:
the source divides by `norm` with no epsilon guard, so in `f64` the result is
NaN exactly when the norm is zero.  `none` marks that undefined case. -/
def xyz_to_lonlatOpt (v : V3) : Option (ℝ × ℝ) :=
  if norm3 v = 0 then none else some (xyz_to_lonlat v)

/-- `lonlat_to_xy`: the source destructures its shape argument as
`let (h, w) = shape;` and maps `x = (lon/(2π) + 0.5)·(w-1)`,
`y = (lat/π + 0.5)·(h-1)`, per pixel. -/
def lonlat_to_xy (lonlat : ℝ × ℝ) (shape : ℕ × ℕ) : ℝ × ℝ :=
  let h := shape.1
  let w := shape.2
  ((lonlat.1 / (2.0 * π) + 0.5) * ((w : ℝ) - 1.0),
   (lonlat.2 / π + 0.5) * ((h : ℝ) - 1.0))

/-- The `Equirectangular` struct: decoded source image handle plus the two
`i32` extent fields (the pixel data itself plays no role in the coordinate
computation and is not carried). -/
structure Equirectangular where
  height : ℕ
  width : ℕ

/-- `Equirectangular::new`: `nshare`'s `into_ndarray3` converts the decoded
RGB image to an array of shape `(channels, rows, cols)`, and the constructor
sets `height = img.shape()[2]` (the **column** count) and
`width = img.shape()[1]` (the **row** count). -/
def Equirectangular.new (rows cols : ℕ) : Equirectangular :=
  { height := cols, width := rows }

/-- The focal length `f = 0.5 * width * 1.0 / tan(0.5 * fov / 180 * π)`
computed at the top of `get_perspective` (`fov` in degrees, `width` the
requested output width). -/
def focal (fov : ℝ) (width : ℕ) : ℝ :=
  0.5 * (width : ℝ) * 1.0 / Real.tan (0.5 * fov / 180.0 * π)

/-- The principal-point abscissa `cx = (width - 1) / 2`. -/
def ppx (width : ℕ) : ℝ := ((width : ℝ) - 1.0) / 2.0

/-- The principal-point ordinate `cy = (height - 1) / 2`. -/
def ppy (height : ℕ) : ℝ := ((height : ℝ) - 1.0) / 2.0

/-- The pinhole intrinsic matrix `K = [[f, 0, cx], [0, f, cy], [0, 0, 1]]`. -/
def intrinsicK (fov : ℝ) (height width : ℕ) : M3 :=
  Matrix.of ![![focal fov width, 0, ppx width],
              ![0, focal fov width, ppy height],
              ![0, 0, 1]]

/-- The per-pixel ray of the Ray Generator: the code stacks `(x, y, z) =
(j, i, 1)` for the pixel in row `i`, column `j` and applies `k_inv.dot(·)`. -/
def rayDirection (fov : ℝ) (height width : ℕ) (i j : ℕ) : V3 :=
  (intrinsicK fov height width)⁻¹ *ᵥ ![(j : ℝ), (i : ℝ), 1]

/-- Cross-product matrix `[a]ₓ` of a 3-vector. -/
def crossMat (a : V3) : M3 :=
  Matrix.of ![![0, -a 2, a 1],
              ![a 2, 0, -a 0],
              ![-a 1, a 0, 0]]

/-- Rodrigues rotation matrix for angle `t` about the axis `a`:
`I + sin t·K + (1 - cos t)·K²` with `K = [a]ₓ` (the "matrix exponential form"
of the spec; a rotation matrix when `a` is a unit vector). -/
def rotAA (t : ℝ) (a : V3) : M3 :=
  1 + Real.sin t • crossMat a + (1 - Real.cos t) • (crossMat a * crossMat a)

/-- Model of OpenCV `rodrigues` on a rotation vector `v`: the rotation by
`‖v‖` radians about the normalised axis `v / ‖v‖` (the identity for `v = 0`,
since `sin 0 = 1 - cos 0 = 0`). -/
def rodrigues (v : V3) : M3 := rotAA (norm3 v) (normalize3 v)

/-- `y_axis = Vec3d::from([0.0, 1.0, 0.0])`. -/
def yAxis : V3 := ![0, 1, 0]

/-- `x_axis = Vec3d::from([1.0, 0.0, 0.0])`. -/
def xAxis : V3 := ![1, 0, 0]

/-- The Rotation Composer of `get_perspective` (`theta`, `phi` in degrees):
`R1 = rodrigues(y_axis * theta_rad)`, `axis2 = R1 · x_axis` (the `gemm` call),
`R2 = rodrigues(axis2 * phi_rad)`, result `R = R2 * R1`. -/
def composeR (theta phi : ℝ) : M3 :=
  let theta_rad := theta * (π / 180.0)
  let phi_rad := phi * (π / 180.0)
  let r1 := rodrigues ![yAxis 0 * theta_rad, yAxis 1 * theta_rad, yAxis 2 * theta_rad]
  let axis2 := r1 *ᵥ xAxis
  let r2 := rodrigues ![axis2 0 * phi_rad, axis2 1 * phi_rad, axis2 2 * phi_rad]
  r2 * r1

/-- The rotated per-pixel ray `R · (K⁻¹ · (j, i, 1)ᵗ)` (the second `gemm`
loop of `get_perspective`). -/
def rotatedDirection (fov theta phi : ℝ) (height width : ℕ) (i j : ℕ) : V3 :=
  composeR theta phi *ᵥ rayDirection fov height width i j

/-- The Sample Coordinate Field of `get_perspective`, per output pixel
`(row i, col j)`: the source computes `lonlat = xyz_to_lonlat(rotated_xyz)`
and `xy = lonlat_to_xy(lonlat, (self.width, self.height))`, where `self` is
`Equirectangular::new` applied to a source image with `rows` rows and `cols`
columns.  Everything after this field is the external `remap` call. -/
def getPerspectiveXY (rows cols : ℕ) (fov theta phi : ℝ)
    (height width : ℕ) (i j : ℕ) : ℝ × ℝ :=
  let e := Equirectangular.new rows cols
  lonlat_to_xy (xyz_to_lonlat (rotatedDirection fov theta phi height width i j))
    (e.width, e.height)

/-- Interpolation flags of OpenCV `remap` relevant here. -/
inductive InterpMode where
  | nearest
  | linear
  | cubic
  deriving DecidableEq

/-- Pixel-extrapolation behaviour at one image border. -/
inductive BorderKind where
  | constant
  | clamp
  | wrap
  | reflect
  deriving DecidableEq

/-- What `get_perspective` passes to the Resampler collaborator: the
interpolation flag, the border behaviour on the horizontal (x/longitude) axis,
the border behaviour on the vertical (y/latitude) axis, and the border scalar.
The source passes `INTER_CUBIC` and the single uniform flag `BORDER_WRAP`
(OpenCV border modes are not per-axis: `BORDER_WRAP` wraps at every border),
plus `Scalar::all(0.0)`. -/
structure RemapArgs where
  interp : InterpMode
  borderX : BorderKind
  borderY : BorderKind
  borderValue : ℝ

/-- The actual argument tuple of the `remap` call in `get_perspective`. -/
def remapArgs : RemapArgs :=
  { interp := InterpMode.cubic
    borderX := BorderKind.wrap
    borderY := BorderKind.wrap
    borderValue := 0 }

end

noncomputable section

/-! ## Small helpers for 3-vector literals -/

lemma vec3_at0 {α : Type} (a b c : α) : (![a, b, c] : Fin 3 → α) 0 = a := rfl

lemma vec3_at1 {α : Type} (a b c : α) : (![a, b, c] : Fin 3 → α) 1 = b := rfl

lemma vec3_at2 {α : Type} (a b c : α) : (![a, b, c] : Fin 3 → α) 2 = c := rfl

lemma vec3_eta (v : V3) : v = ![v 0, v 1, v 2] := by
  funext i; fin_cases i <;> rfl

/-! ## Cross-product matrix algebra

`K = [a]ₓ` for a unit vector `a` satisfies `K³ = -K`; every Rodrigues matrix
is a polynomial `I + s·K + v·K²`, and products of two such polynomials reduce
through `K³ = -K`.  This yields the angle-addition law for `rotAA`, hence
orthogonality (`Rᵀ = R(-t)`) and `det = 1` (`R(t) = R(t/2)²` forces the
determinant, a priori `±1`, to be a square). -/

lemma crossMat_cube_scalar (x y z : ℝ) (h : x ^ 2 + y ^ 2 + z ^ 2 = 1) :
    crossMat ![x, y, z] * crossMat ![x, y, z] * crossMat ![x, y, z]
      = -crossMat ![x, y, z] := by
  ext i j
  fin_cases i <;> fin_cases j <;>
    simp [crossMat, Matrix.mul_apply, Fin.sum_univ_three, Matrix.neg_apply,
      vec3_at0, vec3_at1, vec3_at2]
  all_goals first
    | ring1
    | linear_combination x * h
    | linear_combination (-x) * h
    | linear_combination y * h
    | linear_combination (-y) * h
    | linear_combination z * h
    | linear_combination (-z) * h

lemma matPoly_expand (K : M3) (hK3 : K * K * K = -K) (s1 v1 s2 v2 : ℝ) :
    (1 + s1 • K + v1 • (K * K)) * (1 + s2 • K + v2 • (K * K))
      = 1 + (s1 + s2 - s1 * v2 - v1 * s2) • K
          + (v1 + v2 + s1 * s2 - v1 * v2) • (K * K) := by
  have h3 : K * (K * K) = -K := by rw [← mul_assoc]; exact hK3
  have h4 : K * K * (K * K) = -(K * K) := by
    rw [← mul_assoc, hK3, neg_mul]
  simp only [mul_add, add_mul, one_mul, mul_one, smul_mul_assoc, mul_smul_comm,
    smul_smul, mul_assoc, h3, h4, smul_neg]
  module

lemma crossMat_transpose (a : V3) : (crossMat a)ᵀ = -crossMat a := by
  ext i j
  fin_cases i <;> fin_cases j <;>
    simp [crossMat, Matrix.transpose_apply, Matrix.neg_apply]

lemma rotAA_transpose (t : ℝ) (a : V3) : (rotAA t a)ᵀ = rotAA (-t) a := by
  simp [rotAA, Matrix.transpose_add, Matrix.transpose_smul, Matrix.transpose_one,
    Matrix.transpose_mul, crossMat_transpose, Real.sin_neg, Real.cos_neg,
    neg_mul_neg, smul_neg, neg_smul]

lemma rotAA_zero (a : V3) : rotAA 0 a = 1 := by
  simp [rotAA]

lemma rotAA_mul (a : V3) (h3 : crossMat a * crossMat a * crossMat a = -crossMat a)
    (t u : ℝ) : rotAA t a * rotAA u a = rotAA (t + u) a := by
  have e1 : Real.sin t + Real.sin u - Real.sin t * (1 - Real.cos u)
      - (1 - Real.cos t) * Real.sin u = Real.sin (t + u) := by
    rw [Real.sin_add]; ring
  have e2 : (1 - Real.cos t) + (1 - Real.cos u) + Real.sin t * Real.sin u
      - (1 - Real.cos t) * (1 - Real.cos u) = 1 - Real.cos (t + u) := by
    rw [Real.cos_add]; ring
  unfold rotAA
  rw [matPoly_expand _ h3, e1, e2]

lemma rotAA_orth (a : V3) (h3 : crossMat a * crossMat a * crossMat a = -crossMat a)
    (t : ℝ) : (rotAA t a)ᵀ * rotAA t a = 1 := by
  rw [rotAA_transpose, rotAA_mul a h3]
  simp [rotAA_zero]

lemma rotAA_det (a : V3) (h3 : crossMat a * crossMat a * crossMat a = -crossMat a)
    (t : ℝ) : (rotAA t a).det = 1 := by
  have hsq : (rotAA t a).det * (rotAA t a).det = 1 := by
    have h := congrArg Matrix.det (rotAA_orth a h3 t)
    rwa [Matrix.det_mul, Matrix.det_transpose, Matrix.det_one] at h
  have hnn : 0 ≤ (rotAA t a).det := by
    have hhalf : rotAA t a = rotAA (t / 2) a * rotAA (t / 2) a := by
      rw [rotAA_mul _ h3, add_halves]
    rw [hhalf, Matrix.det_mul]
    exact mul_self_nonneg _
  rcases mul_self_eq_one_iff.mp hsq with h1 | h1
  · exact h1
  · exfalso; rw [h1] at hnn; linarith

/-! ## Norms, normalisation, and the rodrigues model -/

lemma sumSq_nonneg (v : V3) : 0 ≤ sumSq v := by
  unfold sumSq; positivity

lemma norm3_sq (v : V3) : norm3 v ^ 2 = sumSq v :=
  Real.sq_sqrt (sumSq_nonneg v)

lemma sumSq_normalize3 (v : V3) (h : norm3 v ≠ 0) : sumSq (normalize3 v) = 1 := by
  have h2 : norm3 v ^ 2 = sumSq v := norm3_sq v
  unfold sumSq normalize3
  field_simp
  unfold sumSq at h2
  linarith [h2]

lemma normalize3_of_norm_eq_zero (v : V3) (h : norm3 v = 0) :
    normalize3 v = ![0, 0, 0] := by
  funext i; fin_cases i <;> simp [normalize3, h]

lemma crossMat_zero_vec : crossMat ![0, 0, 0] = 0 := by
  ext i j
  fin_cases i <;> fin_cases j <;>
    simp [crossMat, vec3_at0, vec3_at1, vec3_at2] <;> rfl

lemma crossMat_cube (a : V3) (h : sumSq a = 1) :
    crossMat a * crossMat a * crossMat a = -crossMat a := by
  have hv : a = ![a 0, a 1, a 2] := vec3_eta a
  rw [hv]
  exact crossMat_cube_scalar (a 0) (a 1) (a 2) h

lemma rodrigues_cube (v : V3) :
    crossMat (normalize3 v) * crossMat (normalize3 v) * crossMat (normalize3 v)
      = -crossMat (normalize3 v) := by
  by_cases h : norm3 v = 0
  · rw [normalize3_of_norm_eq_zero v h, crossMat_zero_vec]
    simp
  · exact crossMat_cube _ (sumSq_normalize3 v h)

lemma rodrigues_orth (v : V3) : (rodrigues v)ᵀ * rodrigues v = 1 :=
  rotAA_orth _ (rodrigues_cube v) _

lemma rodrigues_det (v : V3) : (rodrigues v).det = 1 :=
  rotAA_det _ (rodrigues_cube v) _

lemma sumSq_mulVec (A : M3) (h : Aᵀ * A = 1) (u : V3) :
    sumSq (A *ᵥ u) = sumSq u := by
  have e : ∀ i j : Fin 3,
      A 0 i * A 0 j + A 1 i * A 1 j + A 2 i * A 2 j = (1 : M3) i j := by
    intro i j
    have h' := congrFun (congrFun h i) j
    simpa [Matrix.mul_apply, Matrix.transpose_apply, Fin.sum_univ_three] using h'
  have e00 := e 0 0
  have e01 := e 0 1
  have e02 := e 0 2
  have e11 := e 1 1
  have e12 := e 1 2
  have e22 := e 2 2
  simp [Matrix.one_apply] at e00 e01 e02 e11 e12 e22
  simp only [sumSq, Matrix.mulVec, Matrix.dotProduct, Fin.sum_univ_three]
  linear_combination (u 0)^2 * e00 + (u 1)^2 * e11 + (u 2)^2 * e22
    + (2 * u 0 * u 1) * e01 + (2 * u 0 * u 2) * e02 + (2 * u 1 * u 2) * e12

lemma crossMat_negVec (a : V3) :
    crossMat ![-(a 0), -(a 1), -(a 2)] = -crossMat a := by
  ext i j
  fin_cases i <;> fin_cases j <;>
    simp [crossMat, vec3_at0, vec3_at1, vec3_at2, Matrix.neg_apply]

lemma rotAA_negAxis (t : ℝ) (a : V3) :
    rotAA t ![-(a 0), -(a 1), -(a 2)] = rotAA (-t) a := by
  unfold rotAA
  rw [crossMat_negVec]
  simp [Real.sin_neg, Real.cos_neg, neg_mul_neg, smul_neg, neg_smul]

lemma rodrigues_mul_unit (a : V3) (h : sumSq a = 1) (t : ℝ) :
    rodrigues ![a 0 * t, a 1 * t, a 2 * t] = rotAA t a := by
  have h' : a 0 ^ 2 + a 1 ^ 2 + a 2 ^ 2 = 1 := h
  have hs : sumSq ![a 0 * t, a 1 * t, a 2 * t] = t ^ 2 := by
    simp only [sumSq, vec3_at0, vec3_at1, vec3_at2]
    linear_combination t ^ 2 * h'
  have hn : norm3 ![a 0 * t, a 1 * t, a 2 * t] = |t| := by
    rw [norm3, hs, Real.sqrt_sq_eq_abs]
  rcases lt_trichotomy t 0 with ht | ht | ht
  · have ht0 : t ≠ 0 := ne_of_lt ht
    have hn' : norm3 ![a 0 * t, a 1 * t, a 2 * t] = -t := by
      rw [hn, abs_of_neg ht]
    have hax : normalize3 ![a 0 * t, a 1 * t, a 2 * t]
        = ![-(a 0), -(a 1), -(a 2)] := by
      funext i
      fin_cases i <;>
        simp [normalize3, hn', vec3_at0, vec3_at1, vec3_at2, div_neg,
          mul_div_cancel_right₀, ht0]
    rw [rodrigues, hn', hax, rotAA_negAxis, neg_neg]
  · subst ht
    have hn' : norm3 ![a 0 * 0, a 1 * 0, a 2 * 0] = 0 := by
      rw [hn, abs_zero]
    rw [rodrigues, hn', rotAA_zero, rotAA_zero]
  · have ht0 : t ≠ 0 := ne_of_gt ht
    have hn' : norm3 ![a 0 * t, a 1 * t, a 2 * t] = t := by
      rw [hn, abs_of_pos ht]
    have hax : normalize3 ![a 0 * t, a 1 * t, a 2 * t] = ![a 0, a 1, a 2] := by
      funext i
      fin_cases i <;>
        simp [normalize3, hn', vec3_at0, vec3_at1, vec3_at2,
          mul_div_cancel_right₀, ht0]
    rw [rodrigues, hn', hax, ← vec3_eta]

end

noncomputable section

/-! ## The composed rotation -/

lemma sumSq_yAxis : sumSq yAxis = 1 := by
  simp [sumSq, yAxis, vec3_at0, vec3_at1, vec3_at2]

lemma sumSq_xAxis : sumSq xAxis = 1 := by
  simp [sumSq, xAxis, vec3_at0, vec3_at1, vec3_at2]

lemma composeR_eq (theta phi : ℝ) :
    composeR theta phi
      = rotAA (phi * (π / 180.0))
          (rotAA (theta * (π / 180.0)) yAxis *ᵥ xAxis)
          * rotAA (theta * (π / 180.0)) yAxis := by
  have h1 : rodrigues ![yAxis 0 * (theta * (π / 180.0)),
      yAxis 1 * (theta * (π / 180.0)), yAxis 2 * (theta * (π / 180.0))]
      = rotAA (theta * (π / 180.0)) yAxis :=
    rodrigues_mul_unit yAxis sumSq_yAxis _
  have horth : (rotAA (theta * (π / 180.0)) yAxis)ᵀ
      * rotAA (theta * (π / 180.0)) yAxis = 1 := by
    rw [← h1]; exact rodrigues_orth _
  have ha2 : sumSq (rotAA (theta * (π / 180.0)) yAxis *ᵥ xAxis) = 1 := by
    rw [sumSq_mulVec _ horth]; exact sumSq_xAxis
  have h2 : rodrigues ![(rotAA (theta * (π / 180.0)) yAxis *ᵥ xAxis) 0 * (phi * (π / 180.0)),
      (rotAA (theta * (π / 180.0)) yAxis *ᵥ xAxis) 1 * (phi * (π / 180.0)),
      (rotAA (theta * (π / 180.0)) yAxis *ᵥ xAxis) 2 * (phi * (π / 180.0))]
      = rotAA (phi * (π / 180.0)) (rotAA (theta * (π / 180.0)) yAxis *ᵥ xAxis) :=
    rodrigues_mul_unit _ ha2 _
  show rodrigues _ * rodrigues _ = _
  rw [h1, h2]

lemma mul_orth (A B : M3) (hA : Aᵀ * A = 1) (hB : Bᵀ * B = 1) :
    (A * B)ᵀ * (A * B) = 1 := by
  rw [Matrix.transpose_mul, mul_assoc, ← mul_assoc Aᵀ A B, hA, one_mul, hB]

lemma composeR_orth (theta phi : ℝ) :
    (composeR theta phi)ᵀ * composeR theta phi = 1 :=
  mul_orth _ _ (rodrigues_orth _) (rodrigues_orth _)

lemma composeR_det (theta phi : ℝ) : (composeR theta phi).det = 1 := by
  show (rodrigues _ * rodrigues _).det = 1
  rw [Matrix.det_mul, rodrigues_det, rodrigues_det, mul_one]

lemma composeR_zero : composeR 0 0 = 1 := by
  rw [composeR_eq]
  simp [rotAA_zero]

/-! ## The range of atan2 -/

lemma atan2_mem_Icc (y x : ℝ) : -π ≤ atan2 y x ∧ atan2 y x ≤ π := by
  have hpi : 0 < π := Real.pi_pos
  have hlt := Real.arctan_lt_pi_div_two (y / x)
  have hgt := Real.neg_pi_div_two_lt_arctan (y / x)
  unfold atan2
  split_ifs with h1 h2 h3 h4 h5
  · constructor <;> linarith
  · have hq : y / x ≤ 0 := div_nonpos_of_nonneg_of_nonpos h3 (le_of_lt h2)
    have : Real.arctan (y / x) ≤ 0 := by
      rw [← Real.arctan_zero]
      exact Real.arctan_strictMono.monotone hq
    constructor <;> linarith
  · have hq : 0 ≤ y / x := div_nonneg_of_nonpos (le_of_not_le h3) (le_of_lt h2)
    have : 0 ≤ Real.arctan (y / x) := by
      rw [← Real.arctan_zero]
      exact Real.arctan_strictMono.monotone hq
    constructor <;> linarith
  · constructor <;> linarith
  · constructor <;> linarith
  · constructor <;> linarith

/-! ## Scale invariance of the normalisation -/

lemma norm3_smul (k : ℝ) (v : V3) :
    norm3 (fun i => k * v i) = |k| * norm3 v := by
  show Real.sqrt ((k * v 0) ^ 2 + (k * v 1) ^ 2 + (k * v 2) ^ 2)
      = |k| * Real.sqrt (v 0 ^ 2 + v 1 ^ 2 + v 2 ^ 2)
  rw [show (k * v 0) ^ 2 + (k * v 1) ^ 2 + (k * v 2) ^ 2
      = k ^ 2 * (v 0 ^ 2 + v 1 ^ 2 + v 2 ^ 2) from by ring]
  rw [Real.sqrt_mul (sq_nonneg k), Real.sqrt_sq_eq_abs]

lemma normalize3_smul (k : ℝ) (hk : 0 < k) (v : V3) :
    normalize3 (fun i => k * v i) = normalize3 v := by
  funext i
  show k * v i / norm3 (fun i => k * v i) = v i / norm3 v
  rw [norm3_smul, abs_of_pos hk, mul_div_mul_left _ _ (ne_of_gt hk)]

lemma xyz_to_lonlat_smul (k : ℝ) (hk : 0 < k) (v : V3) :
    xyz_to_lonlat (fun i => k * v i) = xyz_to_lonlat v := by
  unfold xyz_to_lonlat
  rw [normalize3_smul k hk v]

/-! ## The intrinsic matrix and its inverse -/

lemma focal_ne_zero (fov : ℝ) (width : ℕ)
    (ht : Real.tan (0.5 * fov / 180.0 * π) ≠ 0) (hW : 0 < width) :
    focal fov width ≠ 0 := by
  unfold focal
  apply div_ne_zero _ ht
  have : (0 : ℝ) < (width : ℝ) := by exact_mod_cast hW
  positivity

lemma intrinsicK_inv (fov : ℝ) (height width : ℕ)
    (ht : Real.tan (0.5 * fov / 180.0 * π) ≠ 0) (hW : 0 < width) :
    (intrinsicK fov height width)⁻¹
      = Matrix.of ![![1 / focal fov width, 0, -(ppx width / focal fov width)],
                    ![0, 1 / focal fov width, -(ppy height / focal fov width)],
                    ![0, 0, 1]] := by
  have hf := focal_ne_zero fov width ht hW
  apply Matrix.inv_eq_right_inv
  ext i j
  fin_cases i <;> fin_cases j <;>
    simp [intrinsicK, Matrix.mul_apply, Fin.sum_univ_three, Matrix.one_apply,
      vec3_at0, vec3_at1, vec3_at2, -Matrix.vecCons_const] <;>
    field_simp

lemma rayDirection_eq (fov : ℝ) (height width : ℕ) (i j : ℕ)
    (ht : Real.tan (0.5 * fov / 180.0 * π) ≠ 0) (hW : 0 < width) :
    rayDirection fov height width i j
      = ![((j : ℝ) - ppx width) / focal fov width,
          ((i : ℝ) - ppy height) / focal fov width, 1] := by
  have hf := focal_ne_zero fov width ht hW
  rw [rayDirection, intrinsicK_inv fov height width ht hW]
  funext r
  fin_cases r <;>
    simp [Matrix.mulVec, Matrix.dotProduct, Fin.sum_univ_three,
      vec3_at0, vec3_at1, vec3_at2, -Matrix.vecCons_const] <;>
    field_simp <;> ring

end

noncomputable section

/-! ## The sample-coordinate field: closed form and bounds -/

lemma getPerspectiveXY_eq (rows cols : ℕ) (fov theta phi : ℝ)
    (height width : ℕ) (i j : ℕ) :
    getPerspectiveXY rows cols fov theta phi height width i j
      = (((atan2 (normalize3 (rotatedDirection fov theta phi height width i j) 0)
            (normalize3 (rotatedDirection fov theta phi height width i j) 2))
              / (2.0 * π) + 0.5) * ((cols : ℝ) - 1.0),
         ((Real.arcsin (normalize3 (rotatedDirection fov theta phi height width i j) 1))
              / π + 0.5) * ((rows : ℝ) - 1.0)) := rfl

lemma getPerspectiveXY_bounds (rows cols : ℕ) (fov theta phi : ℝ)
    (height width : ℕ) (i j : ℕ) (hr : 1 ≤ rows) (hc : 1 ≤ cols) :
    0 ≤ (getPerspectiveXY rows cols fov theta phi height width i j).1 ∧
    (getPerspectiveXY rows cols fov theta phi height width i j).1 ≤ (cols : ℝ) - 1 ∧
    0 ≤ (getPerspectiveXY rows cols fov theta phi height width i j).2 ∧
    (getPerspectiveXY rows cols fov theta phi height width i j).2 ≤ (rows : ℝ) - 1 := by
  rw [getPerspectiveXY_eq]
  have hpi := Real.pi_pos
  have h2pi : (0 : ℝ) < 2.0 * π := by positivity
  obtain ⟨hl1, hl2⟩ := atan2_mem_Icc
    (normalize3 (rotatedDirection fov theta phi height width i j) 0)
    (normalize3 (rotatedDirection fov theta phi height width i j) 2)
  have hla1 := Real.neg_pi_div_two_le_arcsin
    (normalize3 (rotatedDirection fov theta phi height width i j) 1)
  have hla2 := Real.arcsin_le_pi_div_two
    (normalize3 (rotatedDirection fov theta phi height width i j) 1)
  have hcolR : (1 : ℝ) ≤ (cols : ℝ) := by exact_mod_cast hc
  have hrowR : (1 : ℝ) ≤ (rows : ℝ) := by exact_mod_cast hr
  have hcol' : (0 : ℝ) ≤ (cols : ℝ) - 1.0 := by linarith
  have hrow' : (0 : ℝ) ≤ (rows : ℝ) - 1.0 := by linarith
  have e1 : -π / (2.0 * π) = -0.5 := by
    rw [div_eq_iff (ne_of_gt h2pi)]; ring
  have e2 : π / (2.0 * π) = 0.5 := by
    rw [div_eq_iff (ne_of_gt h2pi)]; ring
  have e3 : -(π / 2) / π = -0.5 := by
    rw [div_eq_iff (ne_of_gt hpi)]; ring
  have e4 : (π / 2) / π = 0.5 := by
    rw [div_eq_iff (ne_of_gt hpi)]; ring
  have hA0 : 0 ≤ atan2 (normalize3 (rotatedDirection fov theta phi height width i j) 0)
      (normalize3 (rotatedDirection fov theta phi height width i j) 2)
        / (2.0 * π) + 0.5 := by
    have := (div_le_div_iff_of_pos_right h2pi).mpr hl1
    rw [e1] at this
    linarith
  have hA1 : atan2 (normalize3 (rotatedDirection fov theta phi height width i j) 0)
      (normalize3 (rotatedDirection fov theta phi height width i j) 2)
        / (2.0 * π) + 0.5 ≤ 1 := by
    have := (div_le_div_iff_of_pos_right h2pi).mpr hl2
    rw [e2] at this
    linarith
  have hB0 : 0 ≤ Real.arcsin (normalize3 (rotatedDirection fov theta phi height width i j) 1)
      / π + 0.5 := by
    have := (div_le_div_iff_of_pos_right hpi).mpr hla1
    rw [e3] at this
    linarith
  have hB1 : Real.arcsin (normalize3 (rotatedDirection fov theta phi height width i j) 1)
      / π + 0.5 ≤ 1 := by
    have := (div_le_div_iff_of_pos_right hpi).mpr hla2
    rw [e4] at this
    linarith
  refine ⟨mul_nonneg hA0 hcol', ?_, mul_nonneg hB0 hrow', ?_⟩
  · have := mul_le_of_le_one_left hcol' hA1
    linarith
  · have := mul_le_of_le_one_left hrow' hB1
    linarith

/-! ## Arctan and arcsin estimates for the centre-pixel computation -/

lemma arctan_pos_of_pos {x : ℝ} (hx : 0 < x) : 0 < Real.arctan x := by
  have := Real.arctan_strictMono hx
  rwa [Real.arctan_zero] at this

lemma arctan_lt_self_of_pos {x : ℝ} (hx : 0 < x) : Real.arctan x < x := by
  have h := Real.lt_tan (arctan_pos_of_pos hx) (Real.arctan_lt_pi_div_two x)
  rwa [Real.tan_arctan] at h

lemma sqrt3_sq : Real.sqrt 3 ^ 2 = 3 := Real.sq_sqrt (by norm_num)

lemma sqrt3_pos : (0 : ℝ) < Real.sqrt 3 := Real.sqrt_pos.mpr (by norm_num)

lemma sqrt3_lt : Real.sqrt 3 < 1.8 := by
  nlinarith [sqrt3_sq, Real.sqrt_nonneg 3]

lemma tan_fov60 : Real.tan (0.5 * 60 / 180.0 * π) = 1 / Real.sqrt 3 := by
  rw [show (0.5 * 60 / 180.0 * π : ℝ) = π / 6 from by ring]
  rw [Real.tan_eq_sin_div_cos, Real.sin_pi_div_six, Real.cos_pi_div_six]
  have h3 := sqrt3_pos
  rw [div_eq_div_iff (by positivity) (by positivity)]
  ring

lemma tan_fov60_ne : Real.tan (0.5 * 60 / 180.0 * π) ≠ 0 := by
  rw [tan_fov60]
  have h3 := sqrt3_pos
  positivity

lemma focal_60_1080 : focal 60 1080 = 540 * Real.sqrt 3 := by
  unfold focal
  rw [tan_fov60]
  have h3 := sqrt3_pos
  rw [div_eq_iff (by positivity), mul_one_div, mul_div_assoc,
    div_self (ne_of_gt h3), mul_one]
  push_cast
  norm_num

lemma ray_center : rayDirection 60 720 1080 360 540
    = ![Real.sqrt 3 / 3240, Real.sqrt 3 / 3240, 1] := by
  rw [rayDirection_eq 60 720 1080 360 540 tan_fov60_ne (by norm_num)]
  have h3 := sqrt3_pos
  funext r
  fin_cases r <;>
    simp [ppx, ppy, focal_60_1080, vec3_at0, vec3_at1, vec3_at2,
      -Matrix.vecCons_const] <;>
    push_cast <;>
    rw [div_eq_div_iff (by positivity) (by norm_num)] <;>
    first
      | linear_combination (540 : ℝ) * sqrt3_sq
      | linear_combination (-540 : ℝ) * sqrt3_sq

lemma atan2_div_pos (y N : ℝ) (hN : 0 < N) : atan2 (y / N) (1 / N) = Real.arctan y := by
  unfold atan2
  rw [if_pos (by positivity : (0:ℝ) < 1 / N)]
  congr 1
  field_simp

lemma arcsin_aux (x : ℝ) :
    Real.arcsin (x / Real.sqrt (2 * x ^ 2 + 1))
      = Real.arctan (x / Real.sqrt (x ^ 2 + 1)) := by
  have hQpos : 0 < Real.sqrt (x ^ 2 + 1) := Real.sqrt_pos.mpr (by positivity)
  have hQ2 : Real.sqrt (x ^ 2 + 1) ^ 2 = x ^ 2 + 1 := Real.sq_sqrt (by positivity)
  have hNpos : 0 < Real.sqrt (2 * x ^ 2 + 1) := Real.sqrt_pos.mpr (by positivity)
  rw [Real.arctan_eq_arcsin]
  congr 1
  have e1 : 1 + (x / Real.sqrt (x ^ 2 + 1)) ^ 2 = (2 * x ^ 2 + 1) / (x ^ 2 + 1) := by
    rw [div_pow, hQ2]
    field_simp
    ring
  rw [e1, Real.sqrt_div (by positivity : (0:ℝ) ≤ 2 * x ^ 2 + 1)]
  field_simp

end

noncomputable section

/-- Claim C1: for every output pixel, the Sphere Projector produces
`(sx, sy) = ((atan2(n.x, n.z)/(2π) + 0.5)·(srcW − 1), (asin(n.y)/π + 0.5)·(srcH − 1))`,
where `n` is the normalised rotated direction, `atan2` takes `(x, z)` in that
order, `srcW = cols` and `srcH = rows` — even though `Equirectangular::new`
stores the column count in `height` and the row count in `width`, because
`lonlat_to_xy` destructures its shape argument in the opposite order.  The
swap is recorded by the two `Equirectangular.new` conjuncts. -/
theorem sphere_projector_formula (rows cols : ℕ) (fov theta phi : ℝ)
    (height width : ℕ) (i j : ℕ) :
    (Equirectangular.new rows cols).height = cols ∧
    (Equirectangular.new rows cols).width = rows ∧
    getPerspectiveXY rows cols fov theta phi height width i j
      = (((atan2 (normalize3 (rotatedDirection fov theta phi height width i j) 0)
            (normalize3 (rotatedDirection fov theta phi height width i j) 2))
              / (2.0 * π) + 0.5) * ((cols : ℝ) - 1.0),
         ((Real.arcsin (normalize3 (rotatedDirection fov theta phi height width i j) 1))
              / π + 0.5) * ((rows : ℝ) - 1.0)) :=
  ⟨rfl, rfl, rfl⟩

/-- Claim C2 (code behaviour at the failing input): `get_perspective` performs
no field-of-view validation.  At `fov = 270` — far outside `(0°, 180°)` — the
intrinsic matrix is built with `f = 540 / tan(135°) = -540` and has
determinant `291600 ≠ 0`, so inversion succeeds and the computation runs to
completion instead of aborting with an `InvalidParameter` error (no such error
exists anywhere in the code). -/
theorem fov270_no_rejection : (intrinsicK 270 720 1080).det = 291600 := by
  have htan : Real.tan (0.5 * 270 / 180.0 * π) = -1 := by
    rw [show (0.5 * 270 / 180.0 * π : ℝ) = π - π / 4 from by ring]
    rw [Real.tan_pi_sub, Real.tan_pi_div_four]
  have hf : focal 270 1080 = -540 := by
    unfold focal
    rw [htan]
    push_cast
    norm_num
  simp [Matrix.det_fin_three, intrinsicK, vec3_at0, vec3_at1, vec3_at2,
    -Matrix.vecCons_const, hf]
  norm_num

/-- Claim C3: the composed rotation matrix equals `R = R2 · R1`, where `R1` is
the Rodrigues rotation by `theta` radians about the fixed vertical axis
`(0,1,0)` (`rotAA` is the standard formula `I + sin θ·K + (1-cos θ)·K²`),
`axis2 = R1 · (1,0,0)ᵗ`, and `R2` is the Rodrigues rotation by `phi` radians
about `axis2` — pitch is applied about the yawed horizontal axis. -/
theorem rotation_composition (theta phi : ℝ) :
    composeR theta phi
      = rotAA (phi * (π / 180.0))
          (rotAA (theta * (π / 180.0)) yAxis *ᵥ xAxis)
          * rotAA (theta * (π / 180.0)) yAxis :=
  composeR_eq theta phi

/-- Claim C4: for every output pixel `(row i, col j)` the Ray Generator
produces `direction = K⁻¹ · (j, i, 1)ᵗ` with
`K = [[f,0,cx],[0,f,cy],[0,0,1]]`, `f = 0.5·W / tan(0.5·fov_rad)`,
`cx = (W−1)/2`, `cy = (H−1)/2`; consequently the direction's z-component is 1
before normalisation (for any `fov` with `tan(0.5·fov_rad) ≠ 0` and a positive
output width, so that `K` is invertible). -/
theorem ray_generator_pinhole (fov : ℝ) (height width : ℕ) (i j : ℕ)
    (ht : Real.tan (0.5 * fov / 180.0 * π) ≠ 0) (hW : 0 < width) :
    rayDirection fov height width i j
        = (intrinsicK fov height width)⁻¹ *ᵥ ![(j : ℝ), (i : ℝ), 1] ∧
    intrinsicK fov height width
        = Matrix.of ![![focal fov width, 0, ppx width],
                      ![0, focal fov width, ppy height],
                      ![0, 0, 1]] ∧
    rayDirection fov height width i j 2 = 1 := by
  refine ⟨rfl, rfl, ?_⟩
  rw [rayDirection_eq fov height width i j ht hW]
  rfl

/-- Witness for C4 at `fov = 90`, `H = 720`, `W = 1080`, pixel `(0, 0)`. -/
theorem ray_generator_pinhole_witness :
    Real.tan (0.5 * 90 / 180.0 * π) ≠ 0 ∧ 0 < 1080 ∧
    rayDirection 90 720 1080 0 0 2 = 1 := by
  have ht : Real.tan (0.5 * 90 / 180.0 * π) ≠ 0 := by
    rw [show (0.5 * 90 / 180.0 * π : ℝ) = π / 4 from by ring, Real.tan_pi_div_four]
    norm_num
  exact ⟨ht, by norm_num, (ray_generator_pinhole 90 720 1080 0 0 ht (by norm_num)).2.2⟩

/-- Claim C5 (code behaviour at the failing input): the normalisation in
`xyz_to_lonlat` divides by the norm with no epsilon guard and no
`DegenerateRay` handling, so on the zero vector the `f64` quotient `0/0` is
undefined (NaN): the definedness envelope returns `none` instead of a clamped
safe default. -/
theorem xyz_to_lonlat_zero_norm_undefined : xyz_to_lonlatOpt ![0, 0, 0] = none := by
  have h : norm3 ![(0:ℝ), 0, 0] = 0 := by
    simp [norm3, sumSq, vec3_at0, vec3_at1, vec3_at2]
  rw [xyz_to_lonlatOpt, if_pos h]

/-- Claim C6 (counterexample): the resampler is *not* invoked with border mode
"horizontal wrap / vertical clamp-or-constant" — the vertical border behaviour
the code requests is `wrap` (the single uniform `BORDER_WRAP` flag), not clamp
and not constant. -/
theorem remap_border_counterexample :
    ¬ (remapArgs.interp = InterpMode.cubic ∧
       remapArgs.borderX = BorderKind.wrap ∧
       (remapArgs.borderY = BorderKind.clamp ∨
        remapArgs.borderY = BorderKind.constant)) := by
  intro h
  rcases h.2.2 with h' | h' <;> exact absurd h' (by decide)

/-- Claim C6 (amended): the resampler is invoked with bicubic interpolation
(`INTER_CUBIC`) and the single uniform `BORDER_WRAP` border mode — wrapping
both horizontally and vertically — together with the (unused) border constant
`0`. -/
theorem remap_args_bicubic_wrap :
    remapArgs.interp = InterpMode.cubic ∧
    remapArgs.borderX = BorderKind.wrap ∧
    remapArgs.borderY = BorderKind.wrap ∧
    remapArgs.borderValue = 0 :=
  ⟨rfl, rfl, rfl, rfl⟩

/-- Claim C7: for all `theta`, `phi` in `[-360°, 360°]`, the composed rotation
matrix `R` satisfies `Rᵀ·R = I` and `det R = 1` (a proper orthonormal
rotation, no reflection). -/
theorem rotation_orthonormal (theta phi : ℝ)
    (htheta : theta ∈ Set.Icc (-360 : ℝ) 360)
    (hphi : phi ∈ Set.Icc (-360 : ℝ) 360) :
    (composeR theta phi)ᵀ * composeR theta phi = 1 ∧ (composeR theta phi).det = 1 :=
  ⟨composeR_orth theta phi, composeR_det theta phi⟩

/-- Witness for C7 at `theta = phi = 0`. -/
theorem rotation_orthonormal_witness :
    (0 : ℝ) ∈ Set.Icc (-360 : ℝ) 360 ∧
    ((composeR 0 0)ᵀ * composeR 0 0 = 1 ∧ (composeR 0 0).det = 1) :=
  ⟨by constructor <;> norm_num,
   rotation_orthonormal 0 0 (by constructor <;> norm_num)
     (by constructor <;> norm_num)⟩

/-- Claim C9: `xyz_to_lonlat` is invariant under positive scaling of its
input: for every direction vector `v` with nonzero norm and every `k > 0`,
`xyz_to_lonlat (k·v) = xyz_to_lonlat v`. -/
theorem lonlat_scale_invariant (v : V3) (k : ℝ) (hk : 0 < k) (hv : norm3 v ≠ 0) :
    xyz_to_lonlat (fun i => k * v i) = xyz_to_lonlat v :=
  xyz_to_lonlat_smul k hk v

/-- Witness for C9 at `v = (0,0,1)`, `k = 2`. -/
theorem lonlat_scale_invariant_witness :
    (0 : ℝ) < 2 ∧ norm3 ![0, 0, 1] ≠ 0 ∧
    xyz_to_lonlat (fun i => 2 * (![0, 0, 1] : V3) i) = xyz_to_lonlat ![0, 0, 1] := by
  have hv : norm3 ![(0:ℝ), 0, 1] ≠ 0 := by
    simp [norm3, sumSq, vec3_at0, vec3_at1, vec3_at2]
  exact ⟨by norm_num, hv, lonlat_scale_invariant ![0, 0, 1] 2 (by norm_num) hv⟩

/-- Claim C10: for every output pixel and any inputs with
`tan(fov_rad/2) > 0` (and a source image with at least one row and one
column), the fractional sample coordinates are bounded within the source
extents: `sx ∈ [0, srcW−1]` and `sy ∈ [0, srcH−1]`, because `atan2` returns
values in `[−π, π]` and `arcsin` returns values in `[−π/2, π/2]`. -/
theorem sample_coords_in_extents (rows cols : ℕ) (fov theta phi : ℝ)
    (height width : ℕ) (i j : ℕ)
    (ht : 0 < Real.tan (0.5 * fov / 180.0 * π)) (hr : 1 ≤ rows) (hc : 1 ≤ cols) :
    0 ≤ (getPerspectiveXY rows cols fov theta phi height width i j).1 ∧
    (getPerspectiveXY rows cols fov theta phi height width i j).1 ≤ (cols : ℝ) - 1 ∧
    0 ≤ (getPerspectiveXY rows cols fov theta phi height width i j).2 ∧
    (getPerspectiveXY rows cols fov theta phi height width i j).2 ≤ (rows : ℝ) - 1 :=
  getPerspectiveXY_bounds rows cols fov theta phi height width i j hr hc

/-- Witness for C10 at a 2×2 source, `fov = 90`, `theta = phi = 0`, a 1×1
output, pixel `(0, 0)`. -/
theorem sample_coords_in_extents_witness :
    (0 : ℝ) < Real.tan (0.5 * 90 / 180.0 * π) ∧ (1 ≤ 2) ∧
    (0 ≤ (getPerspectiveXY 2 2 90 0 0 1 1 0 0).1 ∧
     (getPerspectiveXY 2 2 90 0 0 1 1 0 0).1 ≤ (2 : ℝ) - 1 ∧
     0 ≤ (getPerspectiveXY 2 2 90 0 0 1 1 0 0).2 ∧
     (getPerspectiveXY 2 2 90 0 0 1 1 0 0).2 ≤ (2 : ℝ) - 1) := by
  have ht : (0 : ℝ) < Real.tan (0.5 * 90 / 180.0 * π) := by
    rw [show (0.5 * 90 / 180.0 * π : ℝ) = π / 4 from by ring, Real.tan_pi_div_four]
    norm_num
  refine ⟨ht, by norm_num, ?_⟩
  have h := sample_coords_in_extents 2 2 90 0 0 1 1 0 0 ht (by norm_num) (by norm_num)
  exact_mod_cast h

end

noncomputable section

/-- Claim C8: for `theta = 0`, `phi = 0` with a 4000×2000 source,
`fov = 60`, `H = 720`, `W = 1080`, the centre output pixel `(360, 540)` is
sampled from a source coordinate within half a pixel of the source-image
centre `(1999.5, 999.5)`. -/
theorem center_pixel_sample :
    |(getPerspectiveXY 2000 4000 60 0 0 720 1080 360 540).1 - 1999.5| < 0.5 ∧
    |(getPerspectiveXY 2000 4000 60 0 0 720 1080 360 540).2 - 999.5| < 0.5 := by
  have h3 := sqrt3_pos
  have hdir : rotatedDirection 60 0 0 720 1080 360 540
      = ![Real.sqrt 3 / 3240, Real.sqrt 3 / 3240, 1] := by
    rw [rotatedDirection, composeR_zero, Matrix.one_mulVec, ray_center]
  have hd_pos : (0:ℝ) < Real.sqrt 3 / 3240 := by positivity
  have hd_lt : Real.sqrt 3 / 3240 < 1 / 1800 := by
    have := sqrt3_lt
    rw [div_lt_div_iff (by norm_num) (by norm_num)]
    linarith
  have hsum : sumSq ![Real.sqrt 3 / 3240, Real.sqrt 3 / 3240, 1]
      = 2 * (Real.sqrt 3 / 3240) ^ 2 + 1 := by
    simp [sumSq, vec3_at0, vec3_at1, vec3_at2]
    ring
  have hNpos : 0 < norm3 ![Real.sqrt 3 / 3240, Real.sqrt 3 / 3240, 1] := by
    rw [norm3, hsum]
    positivity
  have hNid : norm3 ![Real.sqrt 3 / 3240, Real.sqrt 3 / 3240, 1]
      = Real.sqrt (2 * (Real.sqrt 3 / 3240) ^ 2 + 1) := by
    rw [norm3, hsum]
  have hlon : atan2 (normalize3 ![Real.sqrt 3 / 3240, Real.sqrt 3 / 3240, 1] 0)
      (normalize3 ![Real.sqrt 3 / 3240, Real.sqrt 3 / 3240, 1] 2)
      = Real.arctan (Real.sqrt 3 / 3240) := by
    have e0 : normalize3 ![Real.sqrt 3 / 3240, Real.sqrt 3 / 3240, 1] 0
        = (Real.sqrt 3 / 3240) / norm3 ![Real.sqrt 3 / 3240, Real.sqrt 3 / 3240, 1] := rfl
    have e2 : normalize3 ![Real.sqrt 3 / 3240, Real.sqrt 3 / 3240, 1] 2
        = 1 / norm3 ![Real.sqrt 3 / 3240, Real.sqrt 3 / 3240, 1] := rfl
    rw [e0, e2, atan2_div_pos _ _ hNpos]
  have hlat : Real.arcsin (normalize3 ![Real.sqrt 3 / 3240, Real.sqrt 3 / 3240, 1] 1)
      = Real.arctan ((Real.sqrt 3 / 3240)
          / Real.sqrt ((Real.sqrt 3 / 3240) ^ 2 + 1)) := by
    have e1 : normalize3 ![Real.sqrt 3 / 3240, Real.sqrt 3 / 3240, 1] 1
        = (Real.sqrt 3 / 3240) / norm3 ![Real.sqrt 3 / 3240, Real.sqrt 3 / 3240, 1] := rfl
    rw [e1, hNid, arcsin_aux]
  have harc1 : Real.arctan (Real.sqrt 3 / 3240) < Real.sqrt 3 / 3240 :=
    arctan_lt_self_of_pos hd_pos
  have harc1' : 0 < Real.arctan (Real.sqrt 3 / 3240) := arctan_pos_of_pos hd_pos
  have hQ1 : 1 ≤ Real.sqrt ((Real.sqrt 3 / 3240) ^ 2 + 1) := by
    refine (Real.le_sqrt (by norm_num) (by positivity)).mpr ?_
    nlinarith [sq_nonneg (Real.sqrt 3 / 3240)]
  have hdq_pos : 0 < (Real.sqrt 3 / 3240)
      / Real.sqrt ((Real.sqrt 3 / 3240) ^ 2 + 1) := by
    have : 0 < Real.sqrt ((Real.sqrt 3 / 3240) ^ 2 + 1) := by positivity
    positivity
  have harc2 : Real.arctan ((Real.sqrt 3 / 3240)
        / Real.sqrt ((Real.sqrt 3 / 3240) ^ 2 + 1)) < Real.sqrt 3 / 3240 :=
    lt_of_lt_of_le (arctan_lt_self_of_pos hdq_pos) (div_le_self hd_pos.le hQ1)
  have harc2' : 0 < Real.arctan ((Real.sqrt 3 / 3240)
        / Real.sqrt ((Real.sqrt 3 / 3240) ^ 2 + 1)) :=
    arctan_pos_of_pos hdq_pos
  have hpi1 := Real.pi_gt_d2
  have h2pi : (0:ℝ) < 2.0 * π := by positivity
  rw [getPerspectiveXY_eq, hdir, hlon, hlat]
  have hs1 : 0 < Real.arctan (Real.sqrt 3 / 3240) / (2.0 * π) := by positivity
  have hkey1 : Real.arctan (Real.sqrt 3 / 3240) / (2.0 * π) * 3999 < 0.5 := by
    rw [div_mul_eq_mul_div, div_lt_iff h2pi]
    nlinarith [harc1, hd_lt, hpi1]
  have hs2 : 0 < Real.arctan ((Real.sqrt 3 / 3240)
      / Real.sqrt ((Real.sqrt 3 / 3240) ^ 2 + 1)) / π := by
    have := Real.pi_pos
    positivity
  have hkey2 : Real.arctan ((Real.sqrt 3 / 3240)
      / Real.sqrt ((Real.sqrt 3 / 3240) ^ 2 + 1)) / π * 1999 < 0.5 := by
    rw [div_mul_eq_mul_div, div_lt_iff Real.pi_pos]
    nlinarith [harc2, hd_lt, hpi1]
  constructor
  · rw [abs_lt]
    push_cast
    constructor <;> nlinarith [hs1, hkey1]
  · rw [abs_lt]
    push_cast
    constructor <;> nlinarith [hs2, hkey2]

end
